import Mathlib

/-
  Verification of the flow reconstruction and feature-extraction engine
  (src/capture/pcap_analyzer.py, live_capture.py, network_capture.py).

  Modelling conventions:
  * Network addresses are modelled as naturals carrying the linear order of
    the source's lexicographic string comparison; ports are naturals.
    Python compares `(src_ip, src_port) <= (dst_ip, dst_port)` as tuples,
    modelled by the lexicographic order `epLe` on `Endpoint`.
  * Timestamps and all float arithmetic are modelled over `ℚ`; the float
    literal `1e-6` of the source becomes `1/1000000`.
  * The Python dict `self.flows` is modelled as an insertion-ordered
    association list, keyed by the canonical flow key.
  * A parsed IP packet (the input of `PcapAnalyzer._process_packet` after
    scapy field extraction, lines 51-85) is the `Packet` structure; its TCP
    flags are `false` for non-TCP packets, mirroring the empty `flags` dict.
-/

structure Endpoint where
  addr : Nat
  port : Nat
deriving DecidableEq

/-- Lexicographic tuple order used by Python on `(ip, port)` pairs. -/
def epLe (a b : Endpoint) : Prop :=
  a.addr < b.addr ∨ (a.addr = b.addr ∧ a.port ≤ b.port)

instance (a b : Endpoint) : Decidable (epLe a b) := by
  unfold epLe
  exact inferInstance

structure Packet where
  timestamp : ℚ
  src : Endpoint
  dst : Endpoint
  protocol : Nat
  length : Nat
  payload : Nat
  syn : Bool
  ack : Bool
  fin : Bool
  rst : Bool
  psh : Bool
deriving DecidableEq

/-- The per-flow state kept in `self.flows[key]` (pcap_analyzer.py lines
88-95 and 98): denormalized first-packet identity, `start`/`end` instants,
per-direction packet lists `(length, payload)`, inter-arrival samples,
per-direction last-seen instants and the five TCP flag counters. -/
structure FlowRecord where
  src : Endpoint
  dst : Endpoint
  protocol : Nat
  start : ℚ
  endTime : ℚ
  fwd : List (Nat × Nat)
  bwd : List (Nat × Nat)
  fwd_iat : List ℚ
  bwd_iat : List ℚ
  last_fwd : ℚ
  last_bwd : ℚ
  syn : Nat
  ack : Nat
  fin : Nat
  rst : Nat
  psh : Nat
deriving DecidableEq

abbrev FlowKey := Endpoint × Endpoint × Nat

/-- `key = tuple(sorted([(src_ip, src_port), (dst_ip, dst_port)])) + (protocol,)`
(pcap_analyzer.py line 77). -/
def flowKey (p : Packet) : FlowKey :=
  if epLe p.src p.dst then (p.src, p.dst, p.protocol) else (p.dst, p.src, p.protocol)

/-- `is_forward = (src_ip, src_port) <= (dst_ip, dst_port)`
(pcap_analyzer.py line 78). -/
def is_forward (p : Packet) : Prop := epLe p.src p.dst

instance (p : Packet) : Decidable (is_forward p) := by
  unfold is_forward
  exact inferInstance

/-- The fresh flow dict created on first sight of a key
(pcap_analyzer.py lines 88-95). `endTime` is set by every packet
immediately afterwards (line 98); seeding it with the timestamp matches
the `f.get('end', f['start'])` fallback of line 121. -/
def mkFlow (p : Packet) : FlowRecord :=
  { src := p.src, dst := p.dst, protocol := p.protocol
    start := p.timestamp, endTime := p.timestamp
    fwd := [], bwd := [], fwd_iat := [], bwd_iat := []
    last_fwd := p.timestamp, last_bwd := p.timestamp
    syn := 0, ack := 0, fin := 0, rst := 0, psh := 0 }

/-- Flag counting loop of pcap_analyzer.py lines 112-114: each flag present
on the packet increments its counter (flags are only populated for TCP). -/
def addFlags (f : FlowRecord) (p : Packet) : FlowRecord :=
  { f with
    syn := f.syn + (if p.syn then 1 else 0)
    ack := f.ack + (if p.ack then 1 else 0)
    fin := f.fin + (if p.fin then 1 else 0)
    rst := f.rst + (if p.rst then 1 else 0)
    psh := f.psh + (if p.psh then 1 else 0) }

/-- The per-packet mutation of a flow record (pcap_analyzer.py lines
97-114): set `end`, then depending on direction append the IAT sample
(when the directional list is nonempty), update the directional last-seen
instant, append `(length, payload)`, and finally count flags. -/
def updateFlow (f : FlowRecord) (p : Packet) : FlowRecord :=
  let f1 : FlowRecord := { f with endTime := p.timestamp }
  let f2 : FlowRecord :=
    if is_forward p then
      { f1 with
        fwd_iat := if f1.fwd = [] then f1.fwd_iat else f1.fwd_iat ++ [p.timestamp - f1.last_fwd]
        last_fwd := p.timestamp
        fwd := f1.fwd ++ [(p.length, p.payload)] }
    else
      { f1 with
        bwd_iat := if f1.bwd = [] then f1.bwd_iat else f1.bwd_iat ++ [p.timestamp - f1.last_bwd]
        last_bwd := p.timestamp
        bwd := f1.bwd ++ [(p.length, p.payload)] }
  addFlags f2 p

/-- `PcapAnalyzer._process_packet` on the flow table: look the canonical
key up, create the record if absent, then mutate it (lines 87-114). -/
def processPacket (flows : List (FlowKey × FlowRecord)) (p : Packet) :
    List (FlowKey × FlowRecord) :=
  match flows.find? (fun kv => decide (kv.1 = flowKey p)) with
  | none => flows ++ [(flowKey p, updateFlow (mkFlow p) p)]
  | some _ => flows.map (fun kv => if kv.1 = flowKey p then (kv.1, updateFlow kv.2 p) else kv)

/-- Processing a packet stream from an empty table, as `analyze` does
after `self.flows.clear()` (pcap_analyzer.py lines 37-45). -/
def processAll (ps : List Packet) : List (FlowKey × FlowRecord) :=
  ps.foldl processPacket []

example :
    (processAll [{ timestamp := 0, src := ⟨1, 4⟩, dst := ⟨2, 5⟩, protocol := 6,
                   length := 60, payload := 0,
                   syn := true, ack := false, fin := false, rst := false, psh := false }]).length = 1 := by
  decide

/-- `PROTOCOL_MAP = {1: 'ICMP', 6: 'TCP', 17: 'UDP'}` with `.get(..., 'Other')`
(pcap_analyzer.py lines 22 and 130). -/
def PROTOCOL_MAP (n : Nat) : String :=
  if n = 1 then "ICMP" else if n = 6 then "TCP" else if n = 17 then "UDP" else "Other"

/-- `duration = max(f.get('end', f['start']) - f['start'], 1e-6)`
(pcap_analyzer.py line 121). -/
def duration (f : FlowRecord) : ℚ :=
  max (f.endTime - f.start) (1 / 1000000)

/-- One row of the feature frame built by `_extract_features`
(pcap_analyzer.py lines 127-147). `packet_var` holds the population
variance whose square root the source stores as `packet_std` (the square
root of a rational is irrational in general, so the variance is the
modelled quantity). -/
structure FeatureVector where
  src_ip : Nat
  dst_ip : Nat
  src_port : Nat
  dst_port : Nat
  protocol : String
  flow_duration : ℚ
  total_fwd_packets : Nat
  total_bwd_packets : Nat
  total_fwd_bytes : Nat
  total_bwd_bytes : Nat
  fwd_packet_mean : ℚ
  bwd_packet_mean : ℚ
  flow_bytes_per_s : ℚ
  flow_packets_per_s : ℚ
  fwd_iat_mean : ℚ
  bwd_iat_mean : ℚ
  syn_count : Nat
  ack_count : Nat
  fin_count : Nat
  rst_count : Nat
  psh_count : Nat
  packet_mean : ℚ
  packet_var : ℚ
deriving DecidableEq

/-- Arithmetic mean of a list of naturals, `np.mean`. -/
def natMean (l : List Nat) : ℚ := (l.sum : ℚ) / (l.length : ℚ)

/-- Arithmetic mean of a list of rationals, `np.mean`. -/
def ratMean (l : List ℚ) : ℚ := l.sum / (l.length : ℚ)

/-- Population variance of a list of naturals (`np.std` squared). -/
def natVar (l : List Nat) : ℚ :=
  ratMean (l.map (fun x => ((x : ℚ) - natMean l) ^ 2))

/-- The feature row `_extract_features` builds for one flow
(pcap_analyzer.py lines 120-147). -/
def extractFeatures (f : FlowRecord) : FeatureVector :=
  let fwd_lens : List Nat := f.fwd.map Prod.fst
  let bwd_lens : List Nat := f.bwd.map Prod.fst
  let all_lens : List Nat := fwd_lens ++ bwd_lens
  { src_ip := f.src.addr, dst_ip := f.dst.addr
    src_port := f.src.port, dst_port := f.dst.port
    protocol := PROTOCOL_MAP f.protocol
    flow_duration := duration f * 1000000
    total_fwd_packets := f.fwd.length
    total_bwd_packets := f.bwd.length
    total_fwd_bytes := fwd_lens.sum
    total_bwd_bytes := bwd_lens.sum
    fwd_packet_mean := if fwd_lens = [] then 0 else natMean fwd_lens
    bwd_packet_mean := if bwd_lens = [] then 0 else natMean bwd_lens
    flow_bytes_per_s := (all_lens.sum : ℚ) / duration f
    flow_packets_per_s := (all_lens.length : ℚ) / duration f
    fwd_iat_mean := if f.fwd_iat = [] then 0 else ratMean f.fwd_iat * 1000000
    bwd_iat_mean := if f.bwd_iat = [] then 0 else ratMean f.bwd_iat * 1000000
    syn_count := f.syn, ack_count := f.ack, fin_count := f.fin
    rst_count := f.rst, psh_count := f.psh
    packet_mean := if all_lens = [] then 0 else natMean all_lens
    packet_var := if 1 < all_lens.length then natVar all_lens else 0 }

/-- The non-empty branch of `get_summary` (pcap_analyzer.py lines 157-162):
flow count, `total_fwd_packets` column sum plus `total_bwd_packets` column
sum, `src_ip` distinct count plus `dst_ip` distinct count, and the
`value_counts` histogram of the `protocol` column. -/
structure Summary where
  total_flows : Nat
  total_packets : Nat
  unique_ips : Nat
  protocols : String → Nat

/-- `PcapAnalyzer.get_summary` (pcap_analyzer.py lines 151-162); the empty
frame returns the `'No flows'` status, modelled by `none`. -/
def get_summary (fvs : List FeatureVector) : Option Summary :=
  if fvs.isEmpty then none
  else some
    { total_flows := fvs.length
      total_packets := (fvs.map FeatureVector.total_fwd_packets).sum +
        (fvs.map FeatureVector.total_bwd_packets).sum
      unique_ips := (fvs.map FeatureVector.src_ip).dedup.length +
        (fvs.map FeatureVector.dst_ip).dedup.length
      protocols := fun s => (fvs.map FeatureVector.protocol).count s }

/-- `self.flow_timeout` default of `PcapAnalyzer.__init__`
(pcap_analyzer.py line 24). -/
def DEFAULT_FLOW_TIMEOUT : ℚ := 120

/-- Modelled from the spec: the source stores `flow_timeout` in
`PcapAnalyzer.__init__` (pcap_analyzer.py lines 24-26) but no eviction
operation exists anywhere under src; per spec §4.3, `evict_idle(now,
timeout)` sweeps all records and removes (returning) every record whose
`now - last_seen_time > timeout`. The result is the pair (kept records,
evicted records). -/
def evict_idle (flows : List (FlowKey × FlowRecord)) (now timeout : ℚ) :
    List (FlowKey × FlowRecord) × List (FlowKey × FlowRecord) :=
  (flows.filter (fun kv => decide (now - kv.2.endTime ≤ timeout)),
   flows.filter (fun kv => decide (timeout < now - kv.2.endTime)))

/-- `queue.Queue(maxsize=10000)` of `LiveCapture.__init__`
(live_capture.py line 22). -/
def LIVE_QUEUE_CAPACITY : Nat := 10000

/-- The enqueue step of `LiveCapture._process_packet` (live_capture.py
lines 91-95): `put_nowait`, and on `queue.Full` first `get()` the oldest
element and then `put_nowait` the new one. The queue head is the oldest
element. -/
def qput {α : Type} (cap : Nat) (q : List α) (x : α) : List α :=
  if q.length < cap then q ++ [x] else q.tail ++ [x]

/-- The two implementations `create_capture` chooses between
(network_capture.py lines 301-306). -/
inductive CaptureKind where
  | packetCapture
  | simulatedCapture
deriving DecidableEq

/-- `create_capture` (network_capture.py lines 301-306): the scapy-backed
`PacketCapture` when scapy is available, else `SimulatedCapture`. -/
def create_capture (scapy_available : Bool) : CaptureKind :=
  if scapy_available then CaptureKind.packetCapture else CaptureKind.simulatedCapture

/-- Queue capacities: `PacketCapture.__init__` uses `maxsize=1000`
(network_capture.py line 90), `SimulatedCapture.__init__` uses
`maxsize=500` (line 218). -/
def captureQueueCapacity : CaptureKind → Nat
  | CaptureKind.packetCapture => 1000
  | CaptureKind.simulatedCapture => 500

/-- The enqueue step of `PacketCapture._packet_callback`
(network_capture.py lines 101-107): `put(flow, block=False)` followed by
`packet_count += 1`; `queue.Full` aborts both, leaving the state
unchanged. State is (queue contents, packet_count). -/
def packet_callback {α : Type} (cap : Nat) (s : List α × Nat) (x : α) : List α × Nat :=
  if s.1.length < cap then (s.1 ++ [x], s.2 + 1) else s

/-! Concrete packets used as witnesses and counterexamples. -/

/-- A TCP packet whose source endpoint is lexicographically larger than
its destination. -/
def cPktBA : Packet :=
  { timestamp := 0, src := ⟨2, 0⟩, dst := ⟨1, 0⟩, protocol := 6
    length := 60, payload := 0
    syn := false, ack := false, fin := false, rst := false, psh := false }

/-- A TCP packet from the lexicographically smaller endpoint, at t = 10. -/
def cPktAB : Packet :=
  { timestamp := 10, src := ⟨1, 0⟩, dst := ⟨2, 0⟩, protocol := 6
    length := 60, payload := 0
    syn := false, ack := false, fin := false, rst := false, psh := false }

/-- The same direction as `cPktAB` but with an earlier timestamp, t = 5. -/
def cPktAB2 : Packet :=
  { timestamp := 5, src := ⟨1, 0⟩, dst := ⟨2, 0⟩, protocol := 6
    length := 60, payload := 0
    syn := false, ack := false, fin := false, rst := false, psh := false }

/-- The flow record after processing `cPktAB` alone. -/
def cFlowAB : FlowRecord := updateFlow (mkFlow cPktAB) cPktAB

/-- A packet at t = 0 seeding the flow used in the eviction scenario. -/
def cPkt0 : Packet :=
  { timestamp := 0, src := ⟨1, 0⟩, dst := ⟨2, 0⟩, protocol := 17
    length := 100, payload := 72
    syn := false, ack := false, fin := false, rst := false, psh := false }

/-- The flow record last seen at t = 0. -/
def cFlow0 : FlowRecord := updateFlow (mkFlow cPkt0) cPkt0

/-- A TCP packet whose source and destination share one address (different
ports). -/
def cPktSame : Packet :=
  { timestamp := 0, src := ⟨1, 5⟩, dst := ⟨1, 7⟩, protocol := 6
    length := 60, payload := 0
    syn := false, ack := false, fin := false, rst := false, psh := false }

/-- The feature rows extracted after processing `cPktSame` alone. -/
def cFvs : List FeatureVector :=
  (processAll [cPktSame]).map (fun kv => extractFeatures kv.2)

/-! Claim theorems. -/

/-- Claim C1, counterexample: the first packet of a flow is *not* always
counted as forward. Processing the single packet `cPktBA`, whose source is
lexicographically larger than its destination, yields one flow whose
forward sequence is empty and whose backward sequence holds that first
packet, so a packet whose source equals the first packet's source (the
first packet itself) went backward. -/
theorem first_packet_not_always_forward :
    (processAll [cPktBA]).map (fun kv => (kv.2.fwd.length, kv.2.bwd.length)) = [(0, 1)] := by
  decide

/-- Claim C1, amended: direction is determined by lexicographic comparison
of the packet's own source endpoint against its destination endpoint, not
by the flow's first-seen packet: every packet with
`(src_addr, src_port) <= (dst_addr, dst_port)` is appended to the forward
sequence and every other packet to the backward sequence, regardless of
arrival order. -/
theorem direction_is_lexicographic (f : FlowRecord) (p : Packet) :
    if is_forward p then
      (updateFlow f p).fwd = f.fwd ++ [(p.length, p.payload)] ∧ (updateFlow f p).bwd = f.bwd
    else
      (updateFlow f p).bwd = f.bwd ++ [(p.length, p.payload)] ∧ (updateFlow f p).fwd = f.fwd := by
  by_cases h : is_forward p <;> simp [updateFlow, addFlags, h]

theorem updateFlow_fwd (f : FlowRecord) (p : Packet) :
    (updateFlow f p).fwd = if is_forward p then f.fwd ++ [(p.length, p.payload)] else f.fwd := by
  by_cases hd : is_forward p <;> simp [updateFlow, addFlags, hd]

theorem updateFlow_bwd (f : FlowRecord) (p : Packet) :
    (updateFlow f p).bwd = if is_forward p then f.bwd else f.bwd ++ [(p.length, p.payload)] := by
  by_cases hd : is_forward p <;> simp [updateFlow, addFlags, hd]

theorem updateFlow_fwd_iat (f : FlowRecord) (p : Packet) :
    (updateFlow f p).fwd_iat =
      if is_forward p then
        (if f.fwd = [] then f.fwd_iat else f.fwd_iat ++ [p.timestamp - f.last_fwd])
      else f.fwd_iat := by
  by_cases hd : is_forward p <;> simp [updateFlow, addFlags, hd]

theorem updateFlow_bwd_iat (f : FlowRecord) (p : Packet) :
    (updateFlow f p).bwd_iat =
      if is_forward p then f.bwd_iat
      else (if f.bwd = [] then f.bwd_iat else f.bwd_iat ++ [p.timestamp - f.last_bwd]) := by
  by_cases hd : is_forward p <;> simp [updateFlow, addFlags, hd]

theorem updateFlow_endTime (f : FlowRecord) (p : Packet) :
    (updateFlow f p).endTime = p.timestamp := by
  by_cases hd : is_forward p <;> simp [updateFlow, addFlags, hd]

theorem updateFlow_start (f : FlowRecord) (p : Packet) :
    (updateFlow f p).start = f.start := by
  by_cases hd : is_forward p <;> simp [updateFlow, addFlags, hd]

/-- The length relation between a direction's IAT samples and its packet
list. -/
def iatInv (f : FlowRecord) : Prop :=
  f.fwd_iat.length = f.fwd.length - 1 ∧ f.bwd_iat.length = f.bwd.length - 1

theorem iatInv_mkFlow (p : Packet) : iatInv (mkFlow p) := by
  simp [iatInv, mkFlow]

theorem iatInv_updateFlow (f : FlowRecord) (p : Packet) (h : iatInv f) :
    iatInv (updateFlow f p) := by
  obtain ⟨h1, h2⟩ := h
  unfold iatInv
  rw [updateFlow_fwd, updateFlow_bwd, updateFlow_fwd_iat, updateFlow_bwd_iat]
  by_cases hd : is_forward p
  · by_cases he : f.fwd = []
    · simp [he] at h1
      simp [hd, he]
      exact ⟨h1, h2⟩
    · have hl : f.fwd.length ≠ 0 := fun hc => he (List.length_eq_zero.mp hc)
      simp [hd, he]
      omega
  · by_cases he : f.bwd = []
    · simp [he] at h2
      simp [hd, he]
      exact ⟨h1, h2⟩
    · have hl : f.bwd.length ≠ 0 := fun hc => he (List.length_eq_zero.mp hc)
      simp [hd, he]
      omega

theorem iatInv_processPacket (flows : List (FlowKey × FlowRecord)) (p : Packet)
    (h : ∀ kv ∈ flows, iatInv kv.2) :
    ∀ kv ∈ processPacket flows p, iatInv kv.2 := by
  intro kv hkv
  unfold processPacket at hkv
  split at hkv
  · rcases List.mem_append.mp hkv with hmem | hmem
    · exact h kv hmem
    · rw [List.mem_singleton.mp hmem]
      exact iatInv_updateFlow _ _ (iatInv_mkFlow p)
  · rcases List.mem_map.mp hkv with ⟨kv0, hkv0, heq⟩
    by_cases hk : kv0.1 = flowKey p
    · rw [if_pos hk] at heq
      rw [← heq]
      exact iatInv_updateFlow _ _ (h kv0 hkv0)
    · rw [if_neg hk] at heq
      rw [← heq]
      exact h kv0 hkv0

theorem iatInv_foldl (ps : List Packet) :
    ∀ flows, (∀ kv ∈ flows, iatInv kv.2) →
      ∀ kv ∈ List.foldl processPacket flows ps, iatInv kv.2 := by
  induction ps with
  | nil =>
    intro flows h kv hkv
    simpa using h kv (by simpa using hkv)
  | cons p rest ih =>
    intro flows h kv hkv
    simp only [List.foldl_cons] at hkv
    exact ih (processPacket flows p) (iatInv_processPacket flows p h) kv hkv

/-- Claim C2, confirmed: after processing any packet sequence, every flow
record in the table satisfies `len(fwd_iat) = max(len(fwd_packets) - 1, 0)`
and symmetrically for the backward direction; since every intermediate
state is itself the result of processing a prefix, the invariant holds at
every point in time. -/
theorem iat_length_invariant (ps : List Packet) (k : FlowKey) (f : FlowRecord)
    (h : (k, f) ∈ processAll ps) :
    (f.fwd_iat.length : ℤ) = max ((f.fwd.length : ℤ) - 1) 0 ∧
    (f.bwd_iat.length : ℤ) = max ((f.bwd.length : ℤ) - 1) 0 := by
  have hinv := iatInv_foldl ps [] (by simp) (k, f) h
  simp only [iatInv] at hinv
  obtain ⟨h1, h2⟩ := hinv
  constructor <;> omega

/-- Witness for `iat_length_invariant` at the table obtained from the
single packet `cPktAB`. -/
theorem iat_length_invariant_witness :
    (flowKey cPktAB, cFlowAB) ∈ processAll [cPktAB] ∧
    ((cFlowAB.fwd_iat.length : ℤ) = max ((cFlowAB.fwd.length : ℤ) - 1) 0 ∧
     (cFlowAB.bwd_iat.length : ℤ) = max ((cFlowAB.bwd.length : ℤ) - 1) 0) :=
  ⟨by decide, iat_length_invariant [cPktAB] (flowKey cPktAB) cFlowAB (by decide)⟩

/-- Claim C3, counterexample: IAT samples are stored as-is, not clamped.
Processing `cPktAB` at t = 10 and then `cPktAB2` at t = 5 (same direction)
stores the negative sample `-5` in the flow's forward IAT list. -/
theorem negative_iat_stored :
    (processAll [cPktAB, cPktAB2]).map (fun kv => kv.2.fwd_iat) = [[(-5 : ℚ)]] := by
  simp only [processAll, processPacket, updateFlow, mkFlow, addFlags, cPktAB, cPktAB2,
    flowKey, is_forward, epLe, List.foldl, List.find?, List.map]
  norm_num

/-- The packet list of the packet's own direction within a flow record. -/
def dirPackets (f : FlowRecord) (p : Packet) : List (Nat × Nat) :=
  if is_forward p then f.fwd else f.bwd

/-- The IAT sample list of the packet's own direction. -/
def dirIat (f : FlowRecord) (p : Packet) : List ℚ :=
  if is_forward p then f.fwd_iat else f.bwd_iat

/-- The directional last-seen instant (`last_fwd` / `last_bwd`) of the
packet's own direction. -/
def dirLast (f : FlowRecord) (p : Packet) : ℚ :=
  if is_forward p then f.last_fwd else f.last_bwd

/-- The packet list of the opposite direction. -/
def otherPackets (f : FlowRecord) (p : Packet) : List (Nat × Nat) :=
  if is_forward p then f.bwd else f.fwd

/-- Claim C3, amended: a packet of either direction arriving with a
timestamp earlier than that direction's last-seen instant
(`last_fwd_time` or `last_bwd_time`) still increments that direction's
packet and byte counts while the other direction is untouched, and the
inter-arrival sample recorded for it is `timestamp - last_{fwd,bwd}_time`,
stored without clamping and therefore negative in this situation. -/
theorem out_of_order_iat_recorded_as_is (f : FlowRecord) (p : Packet)
    (hne : dirPackets f p ≠ []) (hlt : p.timestamp < dirLast f p) :
    dirPackets (updateFlow f p) p = dirPackets f p ++ [(p.length, p.payload)] ∧
    ((dirPackets (updateFlow f p) p).map Prod.fst).sum =
      ((dirPackets f p).map Prod.fst).sum + p.length ∧
    dirIat (updateFlow f p) p = dirIat f p ++ [p.timestamp - dirLast f p] ∧
    p.timestamp - dirLast f p < 0 ∧
    otherPackets (updateFlow f p) p = otherPackets f p := by
  by_cases hd : is_forward p
  · simp only [dirPackets, dirIat, dirLast, otherPackets, hd, if_true] at hne hlt ⊢
    refine ⟨?_, ?_, ?_, by linarith, ?_⟩ <;> simp [updateFlow, addFlags, hd, hne]
  · simp only [dirPackets, dirIat, dirLast, otherPackets, hd, if_false] at hne hlt ⊢
    refine ⟨?_, ?_, ?_, by linarith, ?_⟩ <;> simp [updateFlow, addFlags, hd, hne]

/-- Witness for `out_of_order_iat_recorded_as_is` at the flow holding only
`cPktAB` (t = 10) and the out-of-order same-direction packet `cPktAB2`
(t = 5). -/
theorem out_of_order_iat_recorded_as_is_witness :
    dirPackets cFlowAB cPktAB2 ≠ [] ∧ cPktAB2.timestamp < dirLast cFlowAB cPktAB2 ∧
    (dirPackets (updateFlow cFlowAB cPktAB2) cPktAB2 =
       dirPackets cFlowAB cPktAB2 ++ [(cPktAB2.length, cPktAB2.payload)] ∧
     ((dirPackets (updateFlow cFlowAB cPktAB2) cPktAB2).map Prod.fst).sum =
       ((dirPackets cFlowAB cPktAB2).map Prod.fst).sum + cPktAB2.length ∧
     dirIat (updateFlow cFlowAB cPktAB2) cPktAB2 =
       dirIat cFlowAB cPktAB2 ++ [cPktAB2.timestamp - dirLast cFlowAB cPktAB2] ∧
     cPktAB2.timestamp - dirLast cFlowAB cPktAB2 < 0 ∧
     otherPackets (updateFlow cFlowAB cPktAB2) cPktAB2 = otherPackets cFlowAB cPktAB2) :=
  ⟨by decide, by decide,
   out_of_order_iat_recorded_as_is cFlowAB cPktAB2 (by decide) (by decide)⟩

/-- Claim C4, counterexample: `last_seen_time` is not updated with `max`.
After `cPktAB` at t = 10 and `cPktAB2` at t = 5, the single flow record
has `end = 5 < 10 = start`, so the last-seen instant decreased and fell
below the start instant. -/
theorem last_seen_decreases :
    (processAll [cPktAB, cPktAB2]).map (fun kv => (kv.2.endTime, kv.2.start)) = [((5 : ℚ), (10 : ℚ))] ∧
    (5 : ℚ) < 10 := by
  constructor
  · decide
  · norm_num

/-- Claim C4, amended: every processed packet sets the flow's last-seen
instant to the packet's own timestamp unconditionally (`flow['end'] =
timestamp`), while the start instant is untouched; with out-of-order
timestamps the last-seen instant can therefore decrease and drop below
`start_time`. -/
theorem last_seen_is_latest_timestamp (f : FlowRecord) (p : Packet) :
    (updateFlow f p).endTime = p.timestamp ∧ (updateFlow f p).start = f.start := by
  by_cases h : is_forward p <;> simp [updateFlow, addFlags, h]

/-- `epLe` is total. -/
theorem epLe_total (a b : Endpoint) : epLe a b ∨ epLe b a := by
  unfold epLe
  omega

/-- `epLe` is antisymmetric. -/
theorem epLe_antisymm (a b : Endpoint) (hab : epLe a b) (hba : epLe b a) : a = b := by
  obtain ⟨x, y⟩ := a
  obtain ⟨z, w⟩ := b
  simp only [epLe] at hab hba
  simp only [Endpoint.mk.injEq]
  omega

/-- Claim C5, confirmed: the flow key is symmetric in the two endpoints.
Any two packets with swapped source/destination endpoints and equal
protocol produce the same canonical flow key, so both map to one record
regardless of which side sent first. -/
theorem flowKey_symmetric (p1 p2 : Packet)
    (h1 : p1.src = p2.dst) (h2 : p1.dst = p2.src) (h3 : p1.protocol = p2.protocol) :
    flowKey p1 = flowKey p2 := by
  unfold flowKey
  rw [h1, h2, h3]
  by_cases hab : epLe p2.dst p2.src
  · by_cases hba : epLe p2.src p2.dst
    · have heq := epLe_antisymm _ _ hab hba
      rw [heq]
    · simp [hab, hba]
  · by_cases hba : epLe p2.src p2.dst
    · simp [hab, hba]
    · rcases epLe_total p2.dst p2.src with h | h
      · exact absurd h hab
      · exact absurd h hba

/-- Witness for `flowKey_symmetric` at the concrete reversed packet pair
`cPktAB` and `cPktBA`. -/
theorem flowKey_symmetric_witness :
    cPktAB.src = cPktBA.dst ∧ cPktAB.dst = cPktBA.src ∧
    cPktAB.protocol = cPktBA.protocol ∧ flowKey cPktAB = flowKey cPktBA :=
  ⟨by decide, by decide, by decide,
   flowKey_symmetric cPktAB cPktBA (by decide) (by decide) (by decide)⟩

/-- Claim C6, confirmed: for every flow record — a single-packet flow with
zero elapsed time included — the extracted `flow_duration` equals
`max(last_seen_time - start_time, 1e-6) * 1_000_000` microseconds, the
divisor used for the two rate features is bounded below by `1e-6` seconds
(hence positive, so the rates are well-defined finite numbers), and the
rates genuinely satisfy `rate * divisor = numerator`. -/
theorem duration_floor_and_finite_rates (f : FlowRecord) :
    (extractFeatures f).flow_duration = max (f.endTime - f.start) (1 / 1000000) * 1000000 ∧
    (1 : ℚ) / 1000000 ≤ duration f ∧
    0 < duration f ∧
    (extractFeatures f).flow_bytes_per_s * duration f =
      (((f.fwd.map Prod.fst).sum + (f.bwd.map Prod.fst).sum : Nat) : ℚ) ∧
    (extractFeatures f).flow_packets_per_s * duration f =
      ((f.fwd.length + f.bwd.length : Nat) : ℚ) := by
  have hd : (1 : ℚ) / 1000000 ≤ duration f := le_max_right _ _
  have hpos : (0 : ℚ) < duration f := lt_of_lt_of_le (by norm_num) hd
  have hne : duration f ≠ 0 := ne_of_gt hpos
  refine ⟨by simp [extractFeatures, duration], hd, hpos, ?_, ?_⟩
  · simp only [extractFeatures]
    rw [div_mul_cancel₀ _ hne]
    push_cast [List.sum_append]
    ring
  · simp only [extractFeatures]
    rw [div_mul_cancel₀ _ hne]
    push_cast [List.length_append, List.length_map]
    ring

/-- Claim C7, confirmed against the spec-modelled `evict_idle`: the
evicted set is exactly the records with `now - last_seen_time > timeout`
(strict inequality) and the kept set exactly the others; a repeated sweep
with no intervening packets evicts nothing; and the flow last seen at
t = 0 survives `evict_idle(now := 100, timeout := 120)` but is evicted by
`evict_idle(now := 121, timeout := 120)`. -/
theorem evict_idle_spec :
    (∀ (flows : List (FlowKey × FlowRecord)) (now timeout : ℚ) (kv : FlowKey × FlowRecord),
        kv ∈ (evict_idle flows now timeout).2 ↔ kv ∈ flows ∧ timeout < now - kv.2.endTime) ∧
    (∀ (flows : List (FlowKey × FlowRecord)) (now timeout : ℚ) (kv : FlowKey × FlowRecord),
        kv ∈ (evict_idle flows now timeout).1 ↔ kv ∈ flows ∧ now - kv.2.endTime ≤ timeout) ∧
    (∀ (flows : List (FlowKey × FlowRecord)) (now timeout : ℚ),
        (evict_idle (evict_idle flows now timeout).1 now timeout).2 = []) ∧
    (evict_idle [(flowKey cPkt0, cFlow0)] 100 120).2 = [] ∧
    (evict_idle [(flowKey cPkt0, cFlow0)] 121 120).2 = [(flowKey cPkt0, cFlow0)] := by
  have he0 : cFlow0.endTime = 0 := by
    rw [cFlow0, updateFlow_endTime]
    rfl
  refine ⟨?_, ?_, ?_, ?_, ?_⟩
  · intro flows now timeout kv
    simp [evict_idle, List.mem_filter]
  · intro flows now timeout kv
    simp [evict_idle, List.mem_filter]
  · intro flows now timeout
    apply List.filter_eq_nil_iff.mpr
    intro kv hkv
    have hkeep := (List.mem_filter.mp hkv).2
    simp only [decide_eq_true_eq] at hkeep ⊢
    linarith
  · apply List.filter_eq_nil_iff.mpr
    intro kv hkv
    rw [List.mem_singleton.mp hkv]
    simp only [decide_eq_true_eq, he0]
    norm_num
  · simp only [evict_idle]
    rw [List.filter_cons]
    simp only [he0, List.filter_nil]
    norm_num

theorem qput_foldl {α : Type} (cap : Nat) (hcap : 0 < cap) :
    ∀ (ps : List α) (q : List α), q.length ≤ cap →
      List.foldl (qput cap) q ps = (q ++ ps).drop (q.length + ps.length - cap) := by
  intro ps
  induction ps with
  | nil =>
    intro q hq
    simp [Nat.sub_eq_zero_of_le hq]
  | cons x rest ih =>
    intro q hq
    simp only [List.foldl_cons]
    by_cases hlt : q.length < cap
    · rw [show qput cap q x = q ++ [x] from by rw [qput]; exact if_pos hlt]
      rw [ih (q ++ [x]) (by simpa using hlt)]
      rw [List.append_assoc]
      simp only [List.singleton_append, List.length_append, List.length_cons, List.length_nil]
      congr 1
      omega
    · have hq2 : q.length = cap := le_antisymm hq (not_lt.mp hlt)
      have hne : q ≠ [] := by
        intro h0
        rw [h0] at hq2
        simp at hq2
        omega
      obtain ⟨hd, tl, rfl⟩ := List.exists_cons_of_ne_nil hne
      have h1 : tl.length + 1 = cap := by simpa using hq2
      rw [show qput cap (hd :: tl) x = tl ++ [x] from by rw [qput]; rw [if_neg hlt]; rfl]
      rw [ih (tl ++ [x]) (by simp; omega)]
      simp only [List.append_assoc, List.singleton_append, List.cons_append,
        List.length_append, List.length_cons, List.length_nil]
      rw [show tl.length + 1 + rest.length - cap = rest.length from by omega]
      rw [show tl.length + 1 + (rest.length + 1) - cap = rest.length + 1 from by omega]
      rw [List.drop_succ_cons]
      simp

/-- Claim C8, confirmed: the live packet source's bounded queue has
capacity 10,000 and drops the oldest unread packet when full: pushing any
packet list with no draining leaves exactly the last `capacity` packets
in the queue, in their original relative order. -/
theorem live_queue_drop_oldest (α : Type) (ps : List α) :
    List.foldl (qput LIVE_QUEUE_CAPACITY) [] ps = ps.drop (ps.length - LIVE_QUEUE_CAPACITY) ∧
    (List.foldl (qput LIVE_QUEUE_CAPACITY) [] ps).length = min ps.length LIVE_QUEUE_CAPACITY := by
  have h := qput_foldl LIVE_QUEUE_CAPACITY (by norm_num [LIVE_QUEUE_CAPACITY]) ps [] (by simp)
  simp only [List.nil_append, List.length_nil, Nat.zero_add] at h
  refine ⟨h, ?_⟩
  rw [h, List.length_drop]
  omega

/-- Claim C9, counterexample: the summary does not report the size of the
union of source and destination addresses. For the single flow produced by
`cPktSame`, whose source and destination share address 1, the summary
reports `unique_ips = 2` while the union of the address columns has one
element. -/
theorem unique_ips_counterexample :
    ((get_summary cFvs).map Summary.unique_ips) = some 2 ∧
    ((cFvs.map FeatureVector.src_ip) ++ (cFvs.map FeatureVector.dst_ip)).toFinset.card = 1 ∧
    ((get_summary cFvs).map Summary.unique_ips) ≠
      some (((cFvs.map FeatureVector.src_ip) ++ (cFvs.map FeatureVector.dst_ip)).toFinset.card) := by
  refine ⟨by decide, by decide, by decide⟩

theorem sum_map_add {α : Type} (f g : α → Nat) (l : List α) :
    (l.map (fun a => f a + g a)).sum = (l.map f).sum + (l.map g).sum := by
  induction l with
  | nil => rfl
  | cons x xs ih =>
    simp only [List.map_cons, List.sum_cons, ih]
    omega

/-- Claim C9, amended: for every non-empty collection of feature vectors
the summary reports the total flow count, the total packet count
`Σ(total_fwd_packets + total_bwd_packets)`, the protocol histogram, and —
instead of the size of the union — the count of distinct source addresses
plus the count of distinct destination addresses, so an address appearing
in both roles is counted twice. -/
theorem get_summary_fields (fvs : List FeatureVector) (h : fvs ≠ []) :
    get_summary fvs = some
      { total_flows := fvs.length
        total_packets := (fvs.map (fun v => v.total_fwd_packets + v.total_bwd_packets)).sum
        unique_ips := (fvs.map FeatureVector.src_ip).toFinset.card +
          (fvs.map FeatureVector.dst_ip).toFinset.card
        protocols := fun s => fvs.countP (fun v => v.protocol == s) } := by
  unfold get_summary
  rw [if_neg (by simpa [List.isEmpty_iff] using h)]
  refine congrArg some ?_
  simp only [Summary.mk.injEq]
  refine ⟨trivial, ?_, ?_, ?_⟩
  · rw [sum_map_add]
  · rw [List.card_toFinset, List.card_toFinset]
  · funext s
    show (fvs.map FeatureVector.protocol).countP (fun x => x == s) = _
    rw [List.countP_map]
    rfl

/-- Witness for `get_summary_fields` at the concrete collection `cFvs`. -/
theorem get_summary_fields_witness :
    cFvs ≠ [] ∧
    get_summary cFvs = some
      { total_flows := cFvs.length
        total_packets := (cFvs.map (fun v => v.total_fwd_packets + v.total_bwd_packets)).sum
        unique_ips := (cFvs.map FeatureVector.src_ip).toFinset.card +
          (cFvs.map FeatureVector.dst_ip).toFinset.card
        protocols := fun s => cFvs.countP (fun v => v.protocol == s) } :=
  ⟨by decide, get_summary_fields cFvs (by decide)⟩

theorem packet_callback_foldl {α : Type} (cap : Nat) :
    ∀ (ps : List α) (q : List α) (c : Nat), q.length ≤ cap →
      List.foldl (packet_callback cap) (q, c) ps =
        (q ++ ps.take (cap - q.length), c + min ps.length (cap - q.length)) := by
  intro ps
  induction ps with
  | nil =>
    intro q c hq
    simp
  | cons x rest ih =>
    intro q c hq
    simp only [List.foldl_cons]
    by_cases hlt : q.length < cap
    · rw [show packet_callback cap (q, c) x = (q ++ [x], c + 1) from by
        rw [packet_callback]; exact if_pos hlt]
      rw [ih (q ++ [x]) (c + 1) (by simpa using hlt)]
      rw [show cap - q.length = (cap - (q ++ [x]).length) + 1 from by simp; omega]
      rw [List.take_succ_cons]
      simp only [List.append_assoc, List.singleton_append, List.cons_append,
        List.length_append, List.length_cons, List.length_nil, List.length_take,
        Prod.mk.injEq]
      constructor
      · rfl
      · omega
    · have hq2 : q.length = cap := le_antisymm hq (not_lt.mp hlt)
      rw [show packet_callback cap (q, c) x = (q, c) from by
        rw [packet_callback]; exact if_neg hlt]
      rw [ih q c hq]
      simp [hq2]

/-- Claim C10, confirmed: `create_capture` selects the scapy-backed
`PacketCapture` when capture is available; its queue capacity is 1,000;
and when the queue is full an incoming packet is silently discarded — the
queue is unchanged and the packet counter is not incremented (drop-newest,
the opposite retention policy from the drop-oldest live-capture queue):
pushing any packet list from an empty state retains the first 1,000
packets and counts only the packets actually enqueued. -/
theorem packetCapture_drop_newest :
    create_capture true = CaptureKind.packetCapture ∧
    captureQueueCapacity (create_capture true) = 1000 ∧
    (∀ (α : Type) (s : List α × Nat) (x : α),
        packet_callback 1000 s x = if s.1.length < 1000 then (s.1 ++ [x], s.2 + 1) else s) ∧
    (∀ (α : Type) (ps : List α),
        List.foldl (packet_callback 1000) ([], 0) ps = (ps.take 1000, min ps.length 1000)) := by
  refine ⟨rfl, rfl, fun α s x => rfl, ?_⟩
  intro α ps
  have h := packet_callback_foldl 1000 ps [] 0 (by simp)
  simpa using h
